import Mathlib

set_option maxRecDepth 8000

/-!
Shallow embedding of the go-ply PLY reader (src/reader.go) and proofs about it.

Conventions:
* Go byte slices are `List Nat` (values < 256 where produced by the code).
* Go `[][]byte` row storage is `List (Option Bytes)`: a `nil` row is `none`.
* The `bufio.Reader` is split into its two uses: a `List String` of
  newline-terminated lines (header and ASCII body; `readLine` strips the line,
  end of input is an EOF error) and a `ByteStream` of raw bytes (binary body).
* Fallible Go functions return `Except GoError` or `Res`; `Res.fault` models a
  Go runtime panic (index out of range, `make` with negative length).
* `fmt` printing in the source has no observable effect on the decoded data
  and is not modelled.
-/

deriving instance DecidableEq for Except

namespace GoPly

abbrev Bytes := List Nat

/-- Go `binary.ByteOrder` restricted to the two orders the reader uses. -/
inductive ByteOrder where
  | big
  | little
deriving DecidableEq, Repr

/-- The remaining raw bytes of the underlying reader (binary body). -/
structure ByteStream where
  data : Bytes
deriving DecidableEq, Repr

/-- Kind of a Go `strconv.NumError`: `ErrSyntax` or `ErrRange`. -/
inductive NumErr where
  | invalid
  | range
deriving DecidableEq, Repr

/-- Errors returned (not panicked) by the reader. `msg` is `errors.New`,
`eof` is `io.EOF`, `unexpectedEOF` is `io.ErrUnexpectedEOF`, `numError` is a
`strconv.NumError` (function name, input). -/
inductive GoError where
  | msg : String → GoError
  | eof : GoError
  | unexpectedEOF : GoError
  | numError : String → String → NumErr → GoError
deriving DecidableEq, Repr

/-- Result of running a piece of the Go code: normal return, returned error,
or runtime panic (`fault`). -/
inductive Res (α : Type) where
  | ok : α → Res α
  | err : GoError → Res α
  | fault : String → Res α
deriving DecidableEq, Repr

/-! ### The type registry (src/reader.go:20-41) -/

def Types : List String :=
  ["invalid", "int8", "int16", "int32", "uint8", "uint16", "uint32", "float32", "float64"]

def OldTypes : List String :=
  ["invalid", "char", "short", "int", "uchar", "ushort", "uint", "float", "double"]

/-- The `SizeOfType` map; a Go map lookup of a missing key yields the zero
value, hence the final `else 0`. -/
def SizeOfType (s : String) : Nat :=
  if s = "invalid" then 0
  else if s = "int8" then 1
  else if s = "int16" then 2
  else if s = "int32" then 4
  else if s = "uint8" then 1
  else if s = "uint16" then 2
  else if s = "uint32" then 4
  else if s = "float32" then 4
  else if s = "float64" then 8
  else if s = "char" then 1
  else if s = "short" then 2
  else if s = "int" then 4
  else if s = "uchar" then 1
  else if s = "ushort" then 2
  else if s = "uint" then 4
  else if s = "float" then 4
  else if s = "double" then 8
  else 0

/-- A scalar type name the decoder recognizes: any canonical or legacy
spelling other than `invalid` (the names matched by the `toType`/`toBType`
case chains). -/
def recognizedType (t : String) : Bool :=
  (t == "int8") || (t == "char") || (t == "int16") || (t == "short") ||
  (t == "int32") || (t == "int") || (t == "uint8") || (t == "uchar") ||
  (t == "uint16") || (t == "ushort") || (t == "uint32") || (t == "uint") ||
  (t == "float32") || (t == "float") || (t == "float64") || (t == "double")

/-! ### Schema data model (src/reader.go:43-56) -/

structure Property where
  Name : String
  IsList : Bool
  Data : List (Option Bytes)
  Type' : String
  ListSizeType : String
  pos : Nat
deriving DecidableEq, Repr

structure Element where
  Name : String
  Properties : List Property
  Size : Int
deriving DecidableEq, Repr

instance : Inhabited Property := ⟨⟨"", false, [], "", "", 0⟩⟩

instance : Inhabited Element := ⟨⟨"", [], 0⟩⟩

/-! ### Model of Go strconv (used by toType, parseHeader, parseASCII).

`strconv.ParseInt`/`ParseUint` with base 0 are base-aware (`0x`, `0b`, `0o`
and legacy leading-`0` octal prefixes). Digit-grouping underscores, which Go
additionally accepts in base-0 mode, are not modelled (they never arise from
the reader's tokenizers, which only emit sign/digit/dot characters). -/

/-- Go's `lower(c) = c | ('x' - 'X')`. -/
def lowerC (c : Char) : Char := Char.ofNat (c.toNat % 256 ||| 0x20)

def isDigit (c : Char) : Bool := '0' ≤ c ∧ c ≤ '9'

def digitValGo (c : Char) : Option Nat :=
  if '0' ≤ c ∧ c ≤ '9' then some (c.toNat - '0'.toNat)
  else if 'a' ≤ lowerC c ∧ lowerC c ≤ 'z' then some ((lowerC c).toNat - 'a'.toNat + 10)
  else none

/-- The digit loop of `strconv.ParseUint`: accumulate, failing with
`ErrSyntax` on a non-digit or a digit ≥ base, and with `ErrRange` once the
accumulated value exceeds `maxVal`. -/
def parseUintDigits (base maxVal : Nat) : List Char → Nat → Except NumErr Nat
  | [], n => .ok n
  | c :: cs, n =>
    match digitValGo c with
    | none => .error .invalid
    | some d =>
      if base ≤ d then .error .invalid
      else
        let n1 := n * base + d
        if maxVal < n1 then .error .range
        else parseUintDigits base maxVal cs n1

/-- `strconv.ParseUint(s, base, bitSize)` (success/error and the value).
With base 0 the base is detected from a `0b`/`0o`/`0x` prefix (which needs at
least one following digit position) or a legacy leading `0` (octal). -/
def parseUintGo (s : List Char) (base0 bitSize : Nat) : Except NumErr Nat :=
  if s = [] then .error .invalid
  else
    let bs :=
      if base0 = 0 then
        match s with
        | '0' :: c :: rest =>
          if lowerC c = 'b' ∧ rest ≠ [] then (2, rest)
          else if lowerC c = 'o' ∧ rest ≠ [] then (8, rest)
          else if lowerC c = 'x' ∧ rest ≠ [] then (16, rest)
          else (8, c :: rest)
        | '0' :: [] => (8, [])
        | _ => (10, s)
      else (base0, s)
    parseUintDigits bs.1 (2 ^ bitSize - 1) bs.2 0

/-- `strconv.ParseInt(s, base, bitSize)`: optional sign, then `ParseUint`,
then the signed range cutoffs. -/
def parseIntGo (s0 : String) (base0 bitSize : Nat) : Except NumErr Int :=
  match s0.toList with
  | [] => .error .invalid
  | cs =>
    let ncs : Bool × List Char :=
      match cs with
      | '+' :: r => (false, r)
      | '-' :: r => (true, r)
      | _ => (false, cs)
    match parseUintGo ncs.2 base0 bitSize with
    | .error .invalid => .error .invalid
    | .error .range => .error .range
    | .ok un =>
      let cutoff := 2 ^ (bitSize - 1)
      if ¬ ncs.1 ∧ cutoff ≤ un then .error .range
      else if ncs.1 ∧ cutoff < un then .error .range
      else .ok (if ncs.1 then -(un : Int) else (un : Int))

/-- `strconv.ParseUint` entry point on a string (no sign accepted). -/
def parseUintStrGo (s : String) (base0 bitSize : Nat) : Except NumErr Nat :=
  parseUintGo s.toList base0 bitSize

/-- Syntax acceptance of `strconv.ParseFloat`: optional sign, then a
case-insensitive `inf`/`infinity`/`nan`, or a decimal mantissa with at least
one digit and an optional complete exponent. Hex-float forms, underscores and
the overflow range check are not modelled (none arise in this development). -/
def parseFloatAccepts (s0 : String) : Bool :=
  match s0.toList with
  | [] => false
  | cs =>
    let cs1 := match cs with
      | '+' :: r => r
      | '-' :: r => r
      | _ => cs
    let low := cs1.map lowerC
    if low = ['i', 'n', 'f'] ∨ low = ['i', 'n', 'f', 'i', 'n', 'i', 't', 'y'] ∨
        low = ['n', 'a', 'n'] then true
    else
      let d1 := cs1.takeWhile isDigit
      let r1 := cs1.dropWhile isDigit
      let dr : List Char × List Char :=
        match r1 with
        | '.' :: r => (r.takeWhile isDigit, r.dropWhile isDigit)
        | _ => ([], r1)
      if d1.length + dr.1.length = 0 then false
      else
        match dr.2 with
        | [] => true
        | e :: r3 =>
          if e = 'e' ∨ e = 'E' then
            let r4 := match r3 with
              | '+' :: r => r
              | '-' :: r => r
              | _ => r3
            r4 ≠ [] ∧ r4.all isDigit
          else false

/-! ### Tokenizers.

The header uses `regexp` `((\d+)*\.*\d+)|\w+` and the ASCII body uses
`[\+\-]*([0-9]*)+\.*[0-9]+` with `FindAllStringSubmatch`, i.e. repeated
leftmost matching (Go regexp has Perl leftmost-first semantics, so the
number alternative is tried before `\w+`). A single match of the numeric
pattern at a position is: optional signs (body pattern only), a maximal digit
run, then either a maximal dot run followed by a maximal nonempty digit run,
or (backtracking the dots) just the nonempty digit run. The scanners below
implement exactly that, advancing one character on a failed position. Fuel is
the string length; every emitted token is nonempty so it suffices. -/

def isSign (c : Char) : Bool := c = '+' ∨ c = '-'

def isWordChar (c : Char) : Bool := c.isAlphanum ∨ c = '_'

/-- One leftmost-match attempt of the ASCII body numeric token pattern. -/
def matchNumTok (cs : List Char) : Option (List Char × List Char) :=
  let signs := cs.takeWhile isSign
  let rest0 := cs.dropWhile isSign
  let d1 := rest0.takeWhile isDigit
  let rest1 := rest0.dropWhile isDigit
  let dots := rest1.takeWhile (fun c => c = '.')
  let rest2 := rest1.dropWhile (fun c => c = '.')
  let d2 := rest2.takeWhile isDigit
  let rest3 := rest2.dropWhile isDigit
  if dots ≠ [] ∧ d2 ≠ [] then some (signs ++ d1 ++ dots ++ d2, rest3)
  else if d1 ≠ [] then some (signs ++ d1, rest1)
  else none

def numTokensAux : Nat → List Char → List String
  | 0, _ => []
  | _ + 1, [] => []
  | fuel + 1, c :: cs =>
    match matchNumTok (c :: cs) with
    | some (tok, rest) => String.mk tok :: numTokensAux fuel rest
    | none => numTokensAux fuel cs

/-- All numeric tokens of an ASCII body line (`numMatcher` in `parseASCII`). -/
def numTokens (s : String) : List String := numTokensAux s.length s.toList

/-- One leftmost-match attempt of the header token pattern: the numeric
alternative first, then `\w+`. -/
def matchHeaderTok (cs : List Char) : Option (List Char × List Char) :=
  let d1 := cs.takeWhile isDigit
  let rest1 := cs.dropWhile isDigit
  let dots := rest1.takeWhile (fun c => c = '.')
  let rest2 := rest1.dropWhile (fun c => c = '.')
  let d2 := rest2.takeWhile isDigit
  let rest3 := rest2.dropWhile isDigit
  if dots ≠ [] ∧ d2 ≠ [] then some (d1 ++ dots ++ d2, rest3)
  else if d1 ≠ [] then some (d1, rest1)
  else
    let w := cs.takeWhile isWordChar
    if w ≠ [] then some (w, cs.dropWhile isWordChar) else none

def headerTokensAux : Nat → List Char → List String
  | 0, _ => []
  | _ + 1, [] => []
  | fuel + 1, c :: cs =>
    match matchHeaderTok (c :: cs) with
    | some (tok, rest) => String.mk tok :: headerTokensAux fuel rest
    | none => headerTokensAux fuel cs

/-- All tokens of a header line (`wordMatcher` in `parseHeader`); each entry
models `words[i][0]`, the full text of the i-th match. -/
def headerTokens (s : String) : List String := headerTokensAux s.length s.toList

/-- The ASCII characters `unicode.IsSpace` accepts (non-ASCII whitespace is
not modelled; header and body lines are ASCII). -/
def isSpaceGo (c : Char) : Bool :=
  c = ' ' ∨ c = '\t' ∨ c = '\n' ∨ c = '\r' ∨ c = '\x0b' ∨ c = '\x0c'

/-- `strip` (src/reader.go:171), i.e. `strings.TrimSpace`. `readLine` returns
the stripped line, so every consumer below works on `strip`-ed lines. -/
def strip (s : String) : String :=
  String.mk (((s.toList.dropWhile isSpaceGo).reverse.dropWhile isSpaceGo).reverse)

/-! ### The text codec toType (src/reader.go:183-270).

For each recognized type the Go code parses the token, allocates
`b := make([]byte, w)` (w zero bytes), wraps it as `bytes.NewBuffer(b)` and
`binary.Write`s the value into that buffer. `bytes.Buffer.Write` APPENDS
after the buffer's initial contents — here it also reallocates, since
`len(b) == cap(b)` — so the encoded value lands beyond the window of the
returned slice `b`, which stays the untouched zero-filled allocation. The
model makes the buffer append explicit via `bufferWrite` and returns `b`
exactly as the source does. An unrecognized type name falls through every
case and returns `(nil, nil)`, modelled as `.ok none`. -/

/-- Contents of a `bytes.Buffer` after `Write`: the old contents followed by
the written bytes (the written bytes land at offsets ≥ the old length, hence
never inside the window of a slice of the initial contents). -/
def bufferWrite (contents bs : Bytes) : Bytes := contents ++ bs

def toType (data typeName : String) : Except GoError (Option Bytes) :=
  if typeName = Types.getD 1 "" ∨ typeName = OldTypes.getD 1 "" then
    match parseIntGo data 0 8 with
    | .error k => .error (.numError "ParseInt" data k)
    | .ok n =>
      let b : Bytes := List.replicate 1 0
      let _buf := bufferWrite b [(n % 256).toNat]
      .ok (some b)
  else if typeName = Types.getD 2 "" ∨ typeName = OldTypes.getD 2 "" then
    match parseIntGo data 0 16 with
    | .error k => .error (.numError "ParseInt" data k)
    | .ok n =>
      let b : Bytes := List.replicate 2 0
      let m := (n % 65536).toNat
      let _buf := bufferWrite b [m % 256, m / 256]
      .ok (some b)
  else if typeName = Types.getD 3 "" ∨ typeName = OldTypes.getD 3 "" then
    match parseIntGo data 0 32 with
    | .error k => .error (.numError "ParseInt" data k)
    | .ok n =>
      let b : Bytes := List.replicate 4 0
      let m := (n % 4294967296).toNat
      let _buf := bufferWrite b [m % 256, m / 256 % 256, m / 65536 % 256, m / 16777216]
      .ok (some b)
  else if typeName = Types.getD 4 "" ∨ typeName = OldTypes.getD 4 "" then
    match parseUintStrGo data 0 8 with
    | .error k => .error (.numError "ParseUint" data k)
    | .ok u =>
      let b : Bytes := List.replicate 1 0
      let _buf := bufferWrite b [u % 256]
      .ok (some b)
  else if typeName = Types.getD 5 "" ∨ typeName = OldTypes.getD 5 "" then
    match parseUintStrGo data 0 16 with
    | .error k => .error (.numError "ParseUint" data k)
    | .ok u =>
      let b : Bytes := List.replicate 2 0
      let _buf := bufferWrite b [u % 256, u / 256 % 256]
      .ok (some b)
  else if typeName = Types.getD 6 "" ∨ typeName = OldTypes.getD 6 "" then
    match parseUintStrGo data 0 32 with
    | .error k => .error (.numError "ParseUint" data k)
    | .ok u =>
      let b : Bytes := List.replicate 4 0
      let _buf := bufferWrite b [u % 256, u / 256 % 256, u / 65536 % 256, u / 16777216 % 256]
      .ok (some b)
  else if typeName = Types.getD 7 "" ∨ typeName = OldTypes.getD 7 "" then
    if parseFloatAccepts data then
      let b : Bytes := List.replicate 4 0
      .ok (some b)
    else .error (.numError "ParseFloat" data .invalid)
  else if typeName = Types.getD 8 "" ∨ typeName = OldTypes.getD 8 "" then
    if parseFloatAccepts data then
      let b : Bytes := List.replicate 8 0
      .ok (some b)
    else .error (.numError "ParseFloat" data .invalid)
  else .ok none
/- In the two float cases the source likewise `bufferWrite`s the IEEE-754
little-endian bytes of the parsed value after `b`; as in every other case
those bytes are outside the returned slice's window, so the float value
itself is not modelled. -/

/-! ### appendBytes (src/reader.go:372-386).

A Go slice is its visible bytes plus a capacity. When the appended data does
not fit, the source allocates a fresh zeroed array of twice the needed
length, copies the old bytes over and reslices; otherwise it extends the
slice in place. Either way the visible result is the old bytes followed by
the data. -/

structure Slice where
  data : Bytes
  cap : Nat
deriving DecidableEq, Repr

def appendBytes (slice : Slice) (dta : Bytes) : Slice :=
  let l := slice.data.length
  if slice.cap < l + dta.length then
    { data := slice.data ++ dta, cap := (l + dta.length) * 2 }
  else
    { data := slice.data ++ dta, cap := slice.cap }

/-- Go `make([]byte, n)`: n zero bytes, capacity n. -/
def makeBytes (n : Nat) : Slice := ⟨List.replicate n 0, n⟩

/-! ### Binary byte input -/

/-- One `rd.Read(b)` call on the buffered reader for a `make([]byte, n)`
destination: it copies the available bytes (up to n) into `b` and leaves the
rest of `b` zero. The source discards both results of `rd.Read`, so a short
or empty read is silent: the returned slice always has length n. -/
def goRead (st : ByteStream) (n : Nat) : Bytes × ByteStream :=
  let k := min n st.data.length
  (st.data.take k ++ List.replicate (n - k) 0, ⟨st.data.drop k⟩)

/-- `toBType` (src/reader.go:388-424): reads `width(type)` raw bytes with no
interpretation. The Go code ignores the error result of `rd.Read`, so this
never fails; an unrecognized type falls through to `(nil, nil)` (`none`). -/
def toBType (st : ByteStream) (typeName : String) : Option Bytes × ByteStream :=
  if typeName = Types.getD 1 "" ∨ typeName = OldTypes.getD 1 "" then
    let r := goRead st 1; (some r.1, r.2)
  else if typeName = Types.getD 2 "" ∨ typeName = OldTypes.getD 2 "" then
    let r := goRead st 2; (some r.1, r.2)
  else if typeName = Types.getD 3 "" ∨ typeName = OldTypes.getD 3 "" then
    let r := goRead st 4; (some r.1, r.2)
  else if typeName = Types.getD 4 "" ∨ typeName = OldTypes.getD 4 "" then
    let r := goRead st 1; (some r.1, r.2)
  else if typeName = Types.getD 5 "" ∨ typeName = OldTypes.getD 5 "" then
    let r := goRead st 2; (some r.1, r.2)
  else if typeName = Types.getD 6 "" ∨ typeName = OldTypes.getD 6 "" then
    let r := goRead st 4; (some r.1, r.2)
  else if typeName = Types.getD 7 "" ∨ typeName = OldTypes.getD 7 "" then
    let r := goRead st 4; (some r.1, r.2)
  else if typeName = Types.getD 8 "" ∨ typeName = OldTypes.getD 8 "" then
    let r := goRead st 8; (some r.1, r.2)
  else (none, st)

/-- Reassemble a 4-byte group as an unsigned 32-bit value in the given byte
order. -/
def decodeU32 (bo : ByteOrder) (bs : Bytes) : Nat :=
  match bo, bs with
  | .little, [a, b, c, d] => a + 256 * b + 65536 * c + 16777216 * d
  | .big, [a, b, c, d] => d + 256 * c + 65536 * b + 16777216 * a
  | _, _ => 0

/-- `binary.Read(r, byteOrder, &num)` for a `uint32`: uses `io.ReadFull`
semantics, so it fails with `io.EOF` on an empty source and
`io.ErrUnexpectedEOF` when 1-3 bytes remain (unlike `toBType`, this error IS
checked by `parseBinary`). -/
def binReadU32 (bo : ByteOrder) (st : ByteStream) : Except GoError (Nat × ByteStream) :=
  if st.data.length = 0 then .error .eof
  else if st.data.length < 4 then .error .unexpectedEOF
  else .ok (decodeU32 bo (st.data.take 4), ⟨st.data.drop 4⟩)

/-! ### Binary body decoder (src/reader.go:426-472).

The Go loops fill `prop.Data[i]` for row i of each property of each element
in declaration order (element outer, row middle, property inner). The model
computes each row's values left to right (`decodeBRow`), collects the rows
(`decodeBRows`) and then stores column k into the k-th property's `Data`
(`setPropsData`) — the same single assignment `prop.Data[i] = ...` the source
performs, grouped per property. `make([][]byte, elem.Size)` panics when the
declared size is negative, modelled as a fault. -/

/-- The inner `for j := 0; j < numSize; j++` loop of the binary list branch:
start from `make([]byte, numSize*SizeOfType[prop.Type])` and `appendBytes`
each `toBType` result (the dead `if e != nil` check is dropped: `toBType`
never returns an error). -/
def decodeBListLoop (t : String) : Nat → Slice → ByteStream → Slice × ByteStream
  | 0, l, st => (l, st)
  | j + 1, l, st =>
    let r := toBType st t
    decodeBListLoop t j (appendBytes l (r.1.getD [])) r.2

/-- Decode one property of one row in binary mode (the body of the inner
property loop of `parseBinary`). The list count is read as a fixed 4-byte
unsigned `num` in the file's byte order, never consulting
`prop.ListSizeType`. -/
def decodeBProp (bo : ByteOrder) (prop : Property) (st : ByteStream) :
    Res (Option Bytes × ByteStream) :=
  if prop.IsList then
    match binReadU32 bo st with
    | .error e => .err e
    | .ok (num, st1) =>
      let w := SizeOfType prop.Type'
      let r := decodeBListLoop prop.Type' num (makeBytes (num * w)) st1
      .ok (some r.1.data, r.2)
  else
    let r := toBType st prop.Type'
    .ok (r.1, r.2)

/-- One row: every property in declared order. -/
def decodeBRow (bo : ByteOrder) : List Property → ByteStream →
    Res (List (Option Bytes) × ByteStream)
  | [], st => .ok ([], st)
  | p :: ps, st =>
    match decodeBProp bo p st with
    | .err e => .err e
    | .fault m => .fault m
    | .ok (v, st') =>
      match decodeBRow bo ps st' with
      | .err e => .err e
      | .fault m => .fault m
      | .ok (vs, st'') => .ok (v :: vs, st'')

/-- All `elem.Size` rows of one element. -/
def decodeBRows (bo : ByteOrder) (props : List Property) : Nat → ByteStream →
    Res (List (List (Option Bytes)) × ByteStream)
  | 0, st => .ok ([], st)
  | i + 1, st =>
    match decodeBRow bo props st with
    | .err e => .err e
    | .fault m => .fault m
    | .ok (vals, st') =>
      match decodeBRows bo props i st' with
      | .err e => .err e
      | .fault m => .fault m
      | .ok (rows, st'') => .ok (vals :: rows, st'')

/-- Store row-major decoded values back into the properties: property k
receives column k (`prop.Data[i] = ...` for each row i). -/
def setPropsData : List Property → List (List (Option Bytes)) → Nat → List Property
  | [], _, _ => []
  | p :: ps, rows, k =>
    { p with Data := rows.map (fun r => r.getD k none) } :: setPropsData ps rows (k + 1)

def decodeBElem (bo : ByteOrder) (e : Element) (st : ByteStream) :
    Res (Element × ByteStream) :=
  if e.Size < 0 then .fault "makeslice: len out of range"
  else
    match decodeBRows bo e.Properties e.Size.toNat st with
    | .err er => .err er
    | .fault m => .fault m
    | .ok (rows, st') =>
      .ok ({ e with Properties := setPropsData e.Properties rows 0 }, st')

def decodeBElems (bo : ByteOrder) : List Element → ByteStream →
    Res (List Element × ByteStream)
  | [], st => .ok ([], st)
  | e :: es, st =>
    match decodeBElem bo e st with
    | .err er => .err er
    | .fault m => .fault m
    | .ok (e', st') =>
      match decodeBElems bo es st' with
      | .err er => .err er
      | .fault m => .fault m
      | .ok (es', st'') => .ok (e' :: es', st'')

/-- `parseBinary` (src/reader.go:426-462), with the byte order `p.byteOrder`
already set by one of the two wrappers below. -/
def parseBinary (bo : ByteOrder) (elems : List Element) (st : ByteStream) :
    Res (List Element × ByteStream) :=
  decodeBElems bo elems st

def parseBinaryBigEndian (elems : List Element) (st : ByteStream) :
    Res (List Element × ByteStream) :=
  parseBinary .big elems st

def parseBinaryLittleEndian (elems : List Element) (st : ByteStream) :
    Res (List Element × ByteStream) :=
  parseBinary .little elems st

/-! ### ASCII body decoder (src/reader.go:474-527).

One line per row; `numMatcher` extracts the numeric tokens and `currWord`
walks them left to right (modelled by consuming a token list). A line with no
tokens (`words == nil`) is skipped: every property of that row keeps its
`nil` (unset) buffer. Accessing `words[currWord]` past the end of the token
list is an index-out-of-range panic; `make([]byte, numSize*SizeOfType[...])`
with a negative product likewise panics. -/

/-- The inner token loop of the ASCII list branch. -/
def decodeAListLoop (t : String) : Nat → Slice → List String →
    Res (Slice × List String)
  | 0, l, toks => .ok (l, toks)
  | j + 1, l, toks =>
    match toks with
    | [] => .fault "index out of range"
    | tok :: toks' =>
      match toType tok t with
      | .error e => .err e
      | .ok ob => decodeAListLoop t j (appendBytes l (ob.getD [])) toks'

/-- Decode one property of one row in ASCII mode. The list count is
`strconv.ParseInt(words[currWord][0], 10, 32)`. -/
def decodeAProp (prop : Property) (toks : List String) :
    Res (Option Bytes × List String) :=
  if prop.IsList then
    match toks with
    | [] => .fault "index out of range"
    | tok :: toks' =>
      match parseIntGo tok 10 32 with
      | .error k => .err (.numError "ParseInt" tok k)
      | .ok num =>
        let sz : Int := num * (SizeOfType prop.Type' : Int)
        if sz < 0 then .fault "makeslice: len out of range"
        else
          match decodeAListLoop prop.Type' num.toNat ⟨List.replicate sz.toNat 0, sz.toNat⟩ toks' with
          | .err e => .err e
          | .fault m => .fault m
          | .ok (l, toks'') => .ok (some l.data, toks'')
  else
    match toks with
    | [] => .fault "index out of range"
    | tok :: toks' =>
      match toType tok prop.Type' with
      | .error e => .err e
      | .ok ob => .ok (ob, toks')

def decodeARow : List Property → List String → Res (List (Option Bytes) × List String)
  | [], toks => .ok ([], toks)
  | p :: ps, toks =>
    match decodeAProp p toks with
    | .err e => .err e
    | .fault m => .fault m
    | .ok (v, toks') =>
      match decodeARow ps toks' with
      | .err e => .err e
      | .fault m => .fault m
      | .ok (vs, toks'') => .ok (v :: vs, toks'')

/-- All rows of one element: each row reads one line (EOF is an error),
tokenizes it, and either skips it (no tokens: the row stays unset for every
property) or decodes it, discarding leftover tokens of the line. -/
def decodeARows (props : List Property) : Nat → List String →
    Res (List (List (Option Bytes)) × List String)
  | 0, lines => .ok ([], lines)
  | i + 1, lines =>
    match lines with
    | [] => .err .eof
    | line :: rest =>
      let toks := numTokens (strip line)
      if toks = [] then
        match decodeARows props i rest with
        | .err e => .err e
        | .fault m => .fault m
        | .ok (rows, rest') => .ok ((props.map fun _ => none) :: rows, rest')
      else
        match decodeARow props toks with
        | .err e => .err e
        | .fault m => .fault m
        | .ok (vals, _) =>
          match decodeARows props i rest with
          | .err e => .err e
          | .fault m => .fault m
          | .ok (rows, rest') => .ok (vals :: rows, rest')

def decodeAElem (e : Element) (lines : List String) : Res (Element × List String) :=
  if e.Size < 0 then .fault "makeslice: len out of range"
  else
    match decodeARows e.Properties e.Size.toNat lines with
    | .err er => .err er
    | .fault m => .fault m
    | .ok (rows, rest) =>
      .ok ({ e with Properties := setPropsData e.Properties rows 0 }, rest)

/-- `parseASCII` (src/reader.go:474-527); ASCII-decoded values are stored
little-endian-normalized (the byte order it sets is `binary.LittleEndian`). -/
def parseASCII : List Element → List String → Res (List Element × List String)
  | [], lines => .ok ([], lines)
  | e :: es, lines =>
    match decodeAElem e lines with
    | .err er => .err er
    | .fault m => .fault m
    | .ok (e', rest) =>
      match parseASCII es rest with
      | .err er => .err er
      | .fault m => .fault m
      | .ok (es', rest') => .ok (e' :: es', rest')

/-! ### Header grammar (src/reader.go:276-370). -/

/-- The mutable state of `parseHeader`'s declaration loop. `currentElem`
starts at -1 and is a Go `int`: indexing `p.Elements[currentElem]` with a
negative or out-of-range value panics. -/
structure HState where
  Elements : List Element
  currentElem : Int
  propPos : Nat
  ObjInfo : List (String × String)
  currentLine : Nat
deriving DecidableEq, Repr

/-- Go map insert/overwrite for `ObjInfoItems` (iteration order is never
observed, so an association list is a faithful model). -/
def mapSet : List (String × String) → String → String → List (String × String)
  | [], k, v => [(k, v)]
  | (k', v') :: m, k, v =>
    if k' = k then (k, v) :: m else (k', v') :: mapSet m k v

/-- Build the `Property` of a `property` header line from the tokens after
the `property` keyword (`words[1..]`), or `none` when one of the
`words[cnt][0]` accesses would be out of range. A non-list property leaves
`ListSizeType` at its zero value `""`. -/
def propOfWords (ws : List String) (pos : Nat) : Option Property :=
  match ws with
  | [] => none
  | w1 :: ws' =>
    if w1 = "list" then
      match ws' with
      | sizeT :: typeT :: nameT :: _ => some ⟨nameT, true, [], typeT, sizeT, pos⟩
      | _ => none
    else
      match ws' with
      | nameT :: _ => some ⟨nameT, false, [], w1, "", pos⟩
      | [] => none

/-- The Go `%q`-style quoting used inside `strconv.NumError.Error()`
(escape sequences are not modelled; no quoted token here contains any). -/
def goQuote (s : String) : String := "\"" ++ s ++ "\""

/-- `(*strconv.NumError).Error()`. -/
def numErrorString (fn num : String) (k : NumErr) : String :=
  "strconv." ++ fn ++ ": parsing " ++ goQuote num ++ ": " ++
    (match k with
     | .invalid => "invalid syntax"
     | .range => "value out of range")

/-- The declaration loop of `parseHeader` (src/reader.go:315-368): read a
line, bump the line counter, tokenize, dispatch on the first token. A line
with no tokens panics at `words[0]`; a `property` line indexes
`p.Elements[currentElem]`, panicking when no `element` line has been seen
(currentElem is still -1). Unknown first tokens are silently skipped. On
`end_header` it returns the state plus the unconsumed lines. -/
def headerLoop (filename : String) : List String → HState → Res (HState × List String)
  | [], _ => .err .eof
  | line :: rest, s0 =>
    let s := { s0 with currentLine := s0.currentLine + 1 }
    match headerTokens (strip line) with
    | [] => .fault "index out of range"
    | w0 :: ws =>
      if w0 = "comment" then headerLoop filename rest s
      else if w0 = "element" then
        match ws with
        | w1 :: w2 :: _ =>
          match parseIntGo w2 0 32 with
          | .error k =>
            .err (.msg (numErrorString "ParseInt" w2 k ++ filename ++
              " at line " ++ toString s.currentLine))
          | .ok num =>
            headerLoop filename rest
              { s with
                Elements := s.Elements ++ [{ Name := w1, Properties := [], Size := num }],
                currentElem := s.currentElem + 1,
                propPos := 0 }
        | _ => .fault "index out of range"
      else if w0 = "property" then
        match propOfWords ws s.propPos with
        | none => .fault "index out of range"
        | some prop =>
          if 0 ≤ s.currentElem ∧ s.currentElem.toNat < s.Elements.length then
            headerLoop filename rest
              { s with
                Elements := s.Elements.set s.currentElem.toNat
                  (let e := s.Elements.getD s.currentElem.toNat default
                   { e with Properties := e.Properties ++ [prop] }),
                propPos := s.propPos + 1 }
          else .fault "index out of range"
      else if w0 = "obj_info" then
        match ws with
        | w1 :: w2 :: _ =>
          headerLoop filename rest { s with ObjInfo := mapSet s.ObjInfo w1 w2 }
        | _ => .fault "index out of range"
      else if w0 = "end_header" then .ok (s, rest)
      else headerLoop filename rest s

/-- What `parseHeader` contributes to the `PLY` value: the schema, the
detected encoding mode (`FileType`) and the metadata. -/
structure HeaderResult where
  Elements : List Element
  FileType : Int
  ObjInfoItems : List (String × String)
deriving DecidableEq, Repr

/-- `parseHeader` (src/reader.go:276-370). Line 1 must strip to the literal
`ply` (any other content is `<filename> is not a ply file.`); line 2 must
tokenize to exactly `format <mode> <version>`; then the declaration loop
runs. Input lines are the newline-terminated lines of the source; a missing
next line is the `readLine` EOF error. Returns the result plus the lines
left for an ASCII body. -/
def parseHeader (filename : String) (lines : List String) :
    Res (HeaderResult × List String) :=
  match lines with
  | [] => .err .eof
  | l1 :: rest1 =>
    if strip l1 ≠ "ply" then .err (.msg (filename ++ " is not a ply file."))
    else
      match rest1 with
      | [] => .err .eof
      | l2 :: rest2 =>
        let words := headerTokens (strip l2)
        if words.length ≠ 3 then
          .err (.msg ("Incorrect format in " ++ filename ++ " at line 2"))
        else if words.getD 0 "" ≠ "format" then
          .err (.msg ("Incorrect format in " ++ filename ++ " at line 2"))
        else
          let ft : Option Int :=
            if words.getD 1 "" = "ascii" then some 2
            else if words.getD 1 "" = "binary_big_endian" then some 0
            else if words.getD 1 "" = "binary_little_endian" then some 1
            else none
          match ft with
          | none => .err (.msg ("Incorrect format in " ++ filename ++ " at line 2"))
          | some t =>
            match headerLoop filename rest2 ⟨[], -1, 0, [], 2⟩ with
            | .err e => .err e
            | .fault m => .fault m
            | .ok (s, restLines) => .ok (⟨s.Elements, t, s.ObjInfo⟩, restLines)

/-! ### Load (src/reader.go:90-112) and the accessors. -/

/-- A fully loaded `PLY` as observed by callers after `Load` returns nil. -/
structure LoadedPLY where
  Elements : List Element
  FileType : Int
  ObjInfoItems : List (String × String)
  byteOrder : ByteOrder
deriving DecidableEq, Repr

/-- `Load`: parse the header, then dispatch on the detected mode. The one
underlying `bufio.Reader` is modelled as the header/ASCII lines plus the raw
`body` bytes that follow the `end_header` line in a binary file (for an ASCII
file `body` is unused, and for a binary file the leftover lines are). The
`default` arm of the Go switch is unreachable but kept. -/
def Load (filename : String) (lines : List String) (body : ByteStream) :
    Res LoadedPLY :=
  match parseHeader filename lines with
  | .err e => .err e
  | .fault m => .fault m
  | .ok (h, rest) =>
    if h.FileType = 0 then
      match parseBinaryBigEndian h.Elements body with
      | .err e => .err e
      | .fault m => .fault m
      | .ok (es, _) => .ok ⟨es, h.FileType, h.ObjInfoItems, .big⟩
    else if h.FileType = 1 then
      match parseBinaryLittleEndian h.Elements body with
      | .err e => .err e
      | .fault m => .fault m
      | .ok (es, _) => .ok ⟨es, h.FileType, h.ObjInfoItems, .little⟩
    else if h.FileType = 2 then
      match parseASCII h.Elements rest with
      | .err e => .err e
      | .fault m => .fault m
      | .ok (es, _) => .ok ⟨es, h.FileType, h.ObjInfoItems, .little⟩
    else .err (.msg "File type error")

/-- `binary.Read(bytes.NewBuffer(v), byteOrder, &float32)` as performed by
`ReadVertices`, returning the float's bit pattern: the first 4 bytes of the
row buffer in the document's byte order. The error result is discarded by
the source, so a `nil` or short buffer leaves the zero value 0.0 (bits 0).
Floats are represented throughout by their IEEE-754 bit patterns. -/
def f32BitsOfRow (bo : ByteOrder) (r : Option Bytes) : Nat :=
  match r with
  | none => 0
  | some bs => if 4 ≤ bs.length then decodeU32 bo (bs.take 4) else 0

/-- One column of `ReadVertices`: `make([]float32, elem.Size)` filled from
the property's rows (a row count above `elem.Size` would panic, modelled as
`none`; missing trailing rows stay 0.0). -/
def colBits (bo : ByteOrder) (size : Nat) (rows : List (Option Bytes)) :
    Option (List Nat) :=
  if size < rows.length then none
  else some (rows.map (f32BitsOfRow bo) ++ List.replicate (size - rows.length) 0)

/-- `ReadVertices` (src/reader.go:143-169): find the first element named
`vertex` (Go `nil`, i.e. `.ok none`, when absent) and decode its first three
properties' row buffers as little/big-endian `float32` columns. Fewer than
three properties panics at `elem.Properties[j]`; a negative size panics in
`make`. -/
def ReadVertices (bo : ByteOrder) (elems : List Element) :
    Res (Option (List (List Nat))) :=
  match elems.findIdx? (fun e => e.Name = "vertex") with
  | none => .ok none
  | some idx =>
    let e := elems.getD idx default
    if e.Size < 0 then .fault "makeslice: len out of range"
    else
      match e.Properties with
      | p0 :: p1 :: p2 :: _ =>
        match colBits bo e.Size.toNat p0.Data, colBits bo e.Size.toNat p1.Data,
            colBits bo e.Size.toNat p2.Data with
        | some c0, some c1, some c2 => .ok (some [c0, c1, c2])
        | _, _, _ => .fault "index out of range"
      | _ => .fault "index out of range"

/-- `Load` followed by the `ReadVertices` accessor on the loaded document
(columns as float32 bit patterns). -/
def loadAndReadVertices (filename : String) (lines : List String)
    (body : ByteStream) : Res (Option (List (List Nat))) :=
  match Load filename lines body with
  | .err e => .err e
  | .fault m => .fault m
  | .ok p => ReadVertices p.byteOrder p.Elements


/-! ### Well-formed headers for claim C8.

A well-formed header body is described by a list of element declarations.
`BodyTok` relates the token lists of the body lines (what `wordMatcher`
produces for each line) to those declarations: an `element` line followed by
one `property` line per property, with `comment` and `obj_info` lines
allowed in between element blocks, terminated by `end_header`. Tokens are
free except for the two constraints the reader's dispatch imposes: the
element count token must parse (`strconv.ParseInt` base 0, 32 bits) to the
declared size, and a non-list property's type token must not be the keyword
`list`. -/

structure PropDecl where
  isList : Bool
  countTok : String
  typeTok : String
  nameTok : String
deriving DecidableEq, Repr

structure ElemDecl where
  nameTok : String
  sizeTok : String
  size : Int
  props : List PropDecl
deriving DecidableEq, Repr

/-- The token list of the `property` line declaring `q`. -/
def propToks (q : PropDecl) : List String :=
  if q.isList then ["property", "list", q.countTok, q.typeTok, q.nameTok]
  else ["property", q.typeTok, q.nameTok]

/-- The `Property` the header loop builds from that line at position `pos`. -/
def mkProp (q : PropDecl) (pos : Nat) : Property :=
  if q.isList then ⟨q.nameTok, true, [], q.typeTok, q.countTok, pos⟩
  else ⟨q.nameTok, false, [], q.typeTok, "", pos⟩

def mkProps : List PropDecl → Nat → List Property
  | [], _ => []
  | q :: qs, pos => mkProp q pos :: mkProps qs (pos + 1)

/-- The `Element` the header loop builds for a declaration. -/
def mkElem (d : ElemDecl) : Element := ⟨d.nameTok, mkProps d.props 0, d.size⟩

/-- A raw header line together with its token list: `headerTokens` of the
stripped line yields exactly these tokens. -/
def lineTok (line : String) (tl : List String) : Prop :=
  headerTokens (strip line) = tl

/-- Token-level shape of a well-formed header body (all lines after the
`format` line, including the final `end_header`). -/
inductive BodyTok : List (List String) → List ElemDecl → Prop where
  | endh (extra : List String) : BodyTok [("end_header" :: extra)] []
  | comment (extra : List String) {rest : List (List String)}
      {decls : List ElemDecl} :
      BodyTok rest decls → BodyTok (("comment" :: extra) :: rest) decls
  | objinfo (k v : String) (extra : List String) {rest : List (List String)}
      {decls : List ElemDecl} :
      BodyTok rest decls → BodyTok (("obj_info" :: k :: v :: extra) :: rest) decls
  | elem (d : ElemDecl) (extra : List String) {rest : List (List String)}
      {decls : List ElemDecl} :
      parseIntGo d.sizeTok 0 32 = .ok d.size →
      (∀ q ∈ d.props, q.isList = false → q.typeTok ≠ "list") →
      BodyTok rest decls →
      BodyTok (("element" :: d.nameTok :: d.sizeTok :: extra) ::
        (d.props.map propToks ++ rest)) (d :: decls)


/-! ### Concrete documents and values used by the claims -/

/-- The minimal ASCII document of claim C1. -/
def minAsciiDoc : List String :=
  ["ply", "format ascii 1.0", "element vertex 1", "property float32 x",
   "property float32 y", "property float32 z", "end_header", "1.0 2.0 3.0"]

/-- The binary-little-endian document of claim C3: one `face` row whose list
property carries count 3 (as the fixed 4-byte count field) and the three
int32 values 1, 2, 3. -/
def c3Header : List String :=
  ["ply", "format binary_little_endian 1.0", "element face 1",
   "property list uint8 int32 ids", "end_header"]

def c3Body : ByteStream := ⟨[3, 0, 0, 0, 1, 0, 0, 0, 2, 0, 0, 0, 3, 0, 0, 0]⟩

/-- The row buffer the code actually stores for that row: the 12 zero bytes
of the length-presized `make([]byte, numSize*SizeOfType[...])` allocation
followed by the 12 value bytes that `appendBytes` appends after them. -/
def c3RowBuf : Bytes := List.replicate 12 0 ++ [1, 0, 0, 0, 2, 0, 0, 0, 3, 0, 0, 0]

/-- The truncated binary file of claim C4: the schema implies 4 body bytes,
the body holds none. -/
def c4Header : List String :=
  ["ply", "format binary_little_endian 1.0", "element vertex 1",
   "property float32 x", "end_header"]

def c5Prop : Property := ⟨"ids", true, [], "int32", "uint8", 0⟩

def c5Elem : Element := ⟨"face", [c5Prop], 1⟩

def c5Stream : ByteStream := ⟨[2, 0, 0, 0, 5, 5, 5, 5, 6, 6, 6, 6]⟩

def c5Buf : Bytes := List.replicate 8 0 ++ [5, 5, 5, 5, 6, 6, 6, 6]

def c5OutProp : Property := ⟨"ids", true, [some c5Buf], "int32", "uint8", 0⟩

def c5OutElem : Element := ⟨"face", [c5OutProp], 1⟩

def c9Prop : Property := ⟨"x", false, [], "float32", "", 0⟩

def c9Elem : Element := ⟨"vertex", [c9Prop], 1⟩

def c9OutProp : Property := ⟨"x", false, [none], "float32", "", 0⟩

def c9OutElem : Element := ⟨"vertex", [c9OutProp], 1⟩

def c7Prop : Property := ⟨"ids", true, [], "int32", "uint8", 0⟩

def c7Stream : ByteStream := ⟨[2, 0, 0, 0, 7, 7, 7, 7, 8, 8, 8, 8]⟩

def c8Decls : List ElemDecl :=
  [⟨"vertex", "2", 2, [⟨false, "", "float32", "x"⟩, ⟨true, "uchar", "int", "ids"⟩]⟩]

def c8Lines : List String :=
  ["element vertex 2", "property float32 x", "property list uchar int ids",
   "end_header"]

def c8Tls : List (List String) :=
  [["element", "vertex", "2"], ["property", "float32", "x"],
   ["property", "list", "uchar", "int", "ids"], ["end_header"]]

/-- The divisibility fact claim C5 needs about a single decoded row value. -/
def PropVal (p : Property) (v : Option Bytes) : Prop :=
  p.IsList = true → ∀ b, v = some b → SizeOfType p.Type' ∣ b.length

/-- The per-element list-buffer invariant of claim C5: every populated row
buffer of every list property of a recognized scalar type has a byte length
that is an exact multiple of the type's width. -/
def listLenInv (e : Element) : Prop :=
  ∀ p ∈ e.Properties, p.IsList = true → recognizedType p.Type' = true →
    ∀ r ∈ p.Data, ∀ b, r = some b → SizeOfType p.Type' ∣ b.length

/-! ## Helper lemmas -/

lemma typesGetD_1 : Types.getD 1 "" = "int8" := by decide
lemma typesGetD_2 : Types.getD 2 "" = "int16" := by decide
lemma typesGetD_3 : Types.getD 3 "" = "int32" := by decide
lemma typesGetD_4 : Types.getD 4 "" = "uint8" := by decide
lemma typesGetD_5 : Types.getD 5 "" = "uint16" := by decide
lemma typesGetD_6 : Types.getD 6 "" = "uint32" := by decide
lemma typesGetD_7 : Types.getD 7 "" = "float32" := by decide
lemma typesGetD_8 : Types.getD 8 "" = "float64" := by decide
lemma oldTypesGetD_1 : OldTypes.getD 1 "" = "char" := by decide
lemma oldTypesGetD_2 : OldTypes.getD 2 "" = "short" := by decide
lemma oldTypesGetD_3 : OldTypes.getD 3 "" = "int" := by decide
lemma oldTypesGetD_4 : OldTypes.getD 4 "" = "uchar" := by decide
lemma oldTypesGetD_5 : OldTypes.getD 5 "" = "ushort" := by decide
lemma oldTypesGetD_6 : OldTypes.getD 6 "" = "uint" := by decide
lemma oldTypesGetD_7 : OldTypes.getD 7 "" = "float" := by decide
lemma oldTypesGetD_8 : OldTypes.getD 8 "" = "double" := by decide

lemma appendBytes_data (s : Slice) (d : Bytes) :
    (appendBytes s d).data = s.data ++ d := by
  simp only [appendBytes]
  split <;> rfl

lemma goRead_fst_length (st : ByteStream) (n : Nat) :
    (goRead st n).1.length = n := by
  simp only [goRead, List.length_append, List.length_take, List.length_replicate]
  omega

set_option maxHeartbeats 1000000 in
/-- Every successful `toType` returns the zero-filled allocation of exactly
the type's width (the encoded value having been appended beyond its
window). -/
lemma toType_ok_zeros (data t : String) (b : Bytes)
    (h : toType data t = .ok (some b)) : b = List.replicate (SizeOfType t) 0 := by
  unfold toType at h
  simp only [typesGetD_1, typesGetD_2, typesGetD_3, typesGetD_4, typesGetD_5,
    typesGetD_6, typesGetD_7, typesGetD_8, oldTypesGetD_1, oldTypesGetD_2,
    oldTypesGetD_3, oldTypesGetD_4, oldTypesGetD_5, oldTypesGetD_6,
    oldTypesGetD_7, oldTypesGetD_8] at h
  split_ifs at h with h1 h2 h3 h4 h5 h6 h7 h8 h9 h10 <;>
    (try split at h) <;>
    (try exact Except.noConfusion h) <;>
    (try exact Option.noConfusion (Except.ok.inj h)) <;>
    (obtain rfl : _ = b := Option.some.inj (Except.ok.inj h)) <;>
    first
    | (rcases h1 with hc | hc <;> subst hc <;> decide)
    | (rcases h2 with hc | hc <;> subst hc <;> decide)
    | (rcases h3 with hc | hc <;> subst hc <;> decide)
    | (rcases h4 with hc | hc <;> subst hc <;> decide)
    | (rcases h5 with hc | hc <;> subst hc <;> decide)
    | (rcases h6 with hc | hc <;> subst hc <;> decide)
    | (rcases h7 with hc | hc <;> subst hc <;> decide)
    | (rcases h9 with hc | hc <;> subst hc <;> decide)

lemma recognizedType_cases (t : String) (h : recognizedType t = true) :
    t = "int8" ∨ t = "char" ∨ t = "int16" ∨ t = "short" ∨ t = "int32" ∨ t = "int" ∨
    t = "uint8" ∨ t = "uchar" ∨ t = "uint16" ∨ t = "ushort" ∨ t = "uint32" ∨
    t = "uint" ∨ t = "float32" ∨ t = "float" ∨ t = "float64" ∨ t = "double" := by
  simp only [recognizedType, Bool.or_eq_true, beq_iff_eq] at h
  tauto

/-- For a recognized type, the byte chunk a `toBType` call contributes has
exactly the type's registered width. -/
lemma toBType_chunk_len (st : ByteStream) (t : String) (h : recognizedType t = true) :
    ((toBType st t).1.getD []).length = SizeOfType t := by
  rcases recognizedType_cases t h with
    hc | hc | hc | hc | hc | hc | hc | hc | hc | hc | hc | hc | hc | hc | hc | hc <;>
    subst hc <;> simp [toBType, Types, OldTypes, SizeOfType, goRead_fst_length]

/-- For an unrecognized type every `toBType` case fails and the result is
`(nil, nil)`. -/
lemma toBType_fst_none (st : ByteStream) (t : String) (h : ¬ recognizedType t = true) :
    (toBType st t).1 = none := by
  unfold toBType
  simp only [typesGetD_1, typesGetD_2, typesGetD_3, typesGetD_4, typesGetD_5,
    typesGetD_6, typesGetD_7, typesGetD_8, oldTypesGetD_1, oldTypesGetD_2,
    oldTypesGetD_3, oldTypesGetD_4, oldTypesGetD_5, oldTypesGetD_6,
    oldTypesGetD_7, oldTypesGetD_8]
  split_ifs with h1 h2 h3 h4 h5 h6 h7 h8 <;>
    first
    | rfl
    | (rcases h1 with hc | hc <;> subst hc <;> exact absurd (by decide) h)
    | (rcases h2 with hc | hc <;> subst hc <;> exact absurd (by decide) h)
    | (rcases h3 with hc | hc <;> subst hc <;> exact absurd (by decide) h)
    | (rcases h4 with hc | hc <;> subst hc <;> exact absurd (by decide) h)
    | (rcases h5 with hc | hc <;> subst hc <;> exact absurd (by decide) h)
    | (rcases h6 with hc | hc <;> subst hc <;> exact absurd (by decide) h)
    | (rcases h7 with hc | hc <;> subst hc <;> exact absurd (by decide) h)
    | (rcases h8 with hc | hc <;> subst hc <;> exact absurd (by decide) h)

/-- Whatever the type, the chunk a `toBType` call contributes has length a
multiple of the registered width (an unrecognized type contributes `nil`). -/
lemma toBType_chunk_dvd (st : ByteStream) (t : String) :
    SizeOfType t ∣ ((toBType st t).1.getD []).length := by
  by_cases h : recognizedType t = true
  · rw [toBType_chunk_len st t h]
  · rw [toBType_fst_none st t h]
    simp

/-- For a recognized type the binary list loop grows the buffer by exactly
`SizeOfType t` bytes per iteration. -/
lemma decodeBListLoop_len (t : String) (h : recognizedType t = true) :
    ∀ (j : Nat) (l : Slice) (st : ByteStream),
      (decodeBListLoop t j l st).1.data.length = l.data.length + j * SizeOfType t := by
  intro j
  induction j with
  | zero => intro l st; simp [decodeBListLoop]
  | succ j ih =>
    intro l st
    rw [decodeBListLoop, ih]
    simp only [appendBytes_data, List.length_append, toBType_chunk_len st t h]
    ring

/-- The binary list loop preserves divisibility of the buffer length by the
type's width. -/
lemma decodeBListLoop_dvd (t : String) :
    ∀ (j : Nat) (l : Slice) (st : ByteStream),
      SizeOfType t ∣ l.data.length →
      SizeOfType t ∣ (decodeBListLoop t j l st).1.data.length := by
  intro j
  induction j with
  | zero => intro l st hl; simpa [decodeBListLoop] using hl
  | succ j ih =>
    intro l st hl
    rw [decodeBListLoop]
    refine ih _ _ ?_
    rw [appendBytes_data, List.length_append]
    exact Nat.dvd_add hl (toBType_chunk_dvd _ _)

lemma int_mul_toNat_dvd (num : Int) (w : Nat) (h : ¬ num * (w : Int) < 0) :
    w ∣ (num * (w : Int)).toNat := by
  rcases Nat.eq_zero_or_pos w with hw | hw
  · subst hw; simp
  · have hnum : 0 ≤ num := by
      by_contra hn
      push_neg at hn
      exact h (mul_neg_of_neg_of_pos hn (by exact_mod_cast hw))
    lift num to Nat using hnum with m
    have hcast : ((m : Int) * (w : Int)) = ((m * w : Nat) : Int) := by push_cast; ring
    rw [hcast, Int.toNat_natCast]
    exact dvd_mul_left w m

lemma decodeBProp_propVal (bo : ByteOrder) (p : Property) (st : ByteStream)
    (v : Option Bytes) (st' : ByteStream)
    (h : decodeBProp bo p st = .ok (v, st')) : PropVal p v := by
  intro hl b hb
  subst hb
  unfold decodeBProp at h
  split at h
  · split at h
    · exact Res.noConfusion h
    · simp only [Res.ok.injEq, Prod.mk.injEq, Option.some.injEq] at h
      obtain ⟨rfl, rfl⟩ := h
      refine decodeBListLoop_dvd _ _ _ _ ?_
      simp only [makeBytes, List.length_replicate]
      exact dvd_mul_left _ _
  · simp_all

lemma decodeBRow_propVal (bo : ByteOrder) :
    ∀ (props : List Property) (st : ByteStream) (vals : List (Option Bytes))
      (st' : ByteStream), decodeBRow bo props st = .ok (vals, st') →
      List.Forall₂ PropVal props vals := by
  intro props
  induction props with
  | nil =>
    intro st vals st' h
    simp only [decodeBRow, Res.ok.injEq, Prod.mk.injEq] at h
    obtain ⟨rfl, rfl⟩ := h
    exact List.Forall₂.nil
  | cons p ps ih =>
    intro st vals st' h
    unfold decodeBRow at h
    split at h
    · exact Res.noConfusion h
    · exact Res.noConfusion h
    · rename_i v st1 heq
      split at h
      · exact Res.noConfusion h
      · exact Res.noConfusion h
      · rename_i vs st2 heq2
        simp only [Res.ok.injEq, Prod.mk.injEq] at h
        obtain ⟨rfl, rfl⟩ := h
        exact List.Forall₂.cons (decodeBProp_propVal bo p st v st1 heq) (ih _ _ _ heq2)

lemma decodeBRows_propVal (bo : ByteOrder) (props : List Property) :
    ∀ (n : Nat) (st : ByteStream) (rows : List (List (Option Bytes)))
      (st' : ByteStream), decodeBRows bo props n st = .ok (rows, st') →
      ∀ r ∈ rows, List.Forall₂ PropVal props r := by
  intro n
  induction n with
  | zero =>
    intro st rows st' h
    simp only [decodeBRows, Res.ok.injEq, Prod.mk.injEq] at h
    obtain ⟨rfl, rfl⟩ := h
    simp
  | succ n ih =>
    intro st rows st' h
    unfold decodeBRows at h
    split at h
    · exact Res.noConfusion h
    · exact Res.noConfusion h
    · rename_i vals st1 heq
      split at h
      · exact Res.noConfusion h
      · exact Res.noConfusion h
      · rename_i rows' st2 heq2
        simp only [Res.ok.injEq, Prod.mk.injEq] at h
        obtain ⟨rfl, rfl⟩ := h
        intro r hr
        rcases List.mem_cons.mp hr with rfl | hr
        · exact decodeBRow_propVal bo props st _ st1 heq
        · exact ih st1 rows' st2 heq2 r hr

lemma setPropsData_mem :
    ∀ (props : List Property) (rows : List (List (Option Bytes))) (k : Nat)
      (p' : Property), p' ∈ setPropsData props rows k →
      ∃ j, ∃ hj : j < props.length,
        p' = { props.get ⟨j, hj⟩ with
               Data := rows.map (fun r => r.getD (k + j) none) } := by
  intro props
  induction props with
  | nil => intro rows k p' h; simp [setPropsData] at h
  | cons p ps ih =>
    intro rows k p' h
    rw [setPropsData] at h
    rcases List.mem_cons.mp h with h | h
    · exact ⟨0, by simp, by simpa using h⟩
    · obtain ⟨j, hj, he⟩ := ih rows (k + 1) p' h
      refine ⟨j + 1, by simpa using hj, ?_⟩
      rw [he]
      have : k + 1 + j = k + (j + 1) := by omega
      simp [this]

lemma forall2_propVal_getD :
    ∀ {ps : List Property} {vals : List (Option Bytes)},
      List.Forall₂ PropVal ps vals →
      ∀ (j : Nat) (hj : j < ps.length), PropVal (ps.get ⟨j, hj⟩) (vals.getD j none) := by
  intro ps vals h
  induction h with
  | nil => intro j hj; exact absurd hj (by simp)
  | @cons p v ps' vals' hpv _ ih =>
    intro j hj
    cases j with
    | zero => simpa using hpv
    | succ j => simpa using ih j (by simpa using hj)

/-- The element-level invariant transfer: a decoded binary element
satisfies claim C5's invariant. -/
lemma decodeBElem_inv (bo : ByteOrder) (e : Element) (st : ByteStream)
    (e' : Element) (st' : ByteStream)
    (h : decodeBElem bo e st = .ok (e', st')) : listLenInv e' := by
  unfold decodeBElem at h
  split at h
  · exact Res.noConfusion h
  · split at h
    · exact Res.noConfusion h
    · exact Res.noConfusion h
    · rename_i rows st2 heq
      simp only [Res.ok.injEq, Prod.mk.injEq] at h
      obtain ⟨rfl, rfl⟩ := h
      intro p hp hl _ r hr b hb
      obtain ⟨j, hj, rfl⟩ := setPropsData_mem _ _ _ _ hp
      obtain ⟨row, hrow, rfl⟩ := List.mem_map.mp hr
      have hf := decodeBRows_propVal bo e.Properties e.Size.toNat st rows st2 heq row hrow
      have hpv := forall2_propVal_getD hf j hj
      simp only [Nat.zero_add] at hb
      exact hpv (by simpa using hl) b hb

lemma decodeBElems_inv (bo : ByteOrder) :
    ∀ (elems : List Element) (st : ByteStream)
      (out : List Element × ByteStream),
      decodeBElems bo elems st = .ok out → ∀ e' ∈ out.1, listLenInv e' := by
  intro elems
  induction elems with
  | nil =>
    intro st out h
    simp only [decodeBElems, Res.ok.injEq] at h
    subst h
    simp
  | cons e es ih =>
    intro st out h
    unfold decodeBElems at h
    split at h
    · exact Res.noConfusion h
    · exact Res.noConfusion h
    · rename_i e1 st1 heq
      split at h
      · exact Res.noConfusion h
      · exact Res.noConfusion h
      · rename_i es1 st2 heq2
        simp only [Res.ok.injEq] at h
        subst h
        intro e' he'
        rcases List.mem_cons.mp he' with rfl | he'
        · exact decodeBElem_inv bo e st _ st1 heq
        · exact ih st1 (es1, st2) heq2 e' he'

/-! ### The same invariant chain for the ASCII decoder. -/

lemma decodeAListLoop_dvd (t : String) :
    ∀ (j : Nat) (l : Slice) (toks : List String) (l' : Slice)
      (toks' : List String), decodeAListLoop t j l toks = .ok (l', toks') →
      SizeOfType t ∣ l.data.length → SizeOfType t ∣ l'.data.length := by
  intro j
  induction j with
  | zero =>
    intro l toks l' toks' h hl
    simp only [decodeAListLoop, Res.ok.injEq, Prod.mk.injEq] at h
    obtain ⟨rfl, rfl⟩ := h
    exact hl
  | succ j ih =>
    intro l toks l' toks' h hl
    unfold decodeAListLoop at h
    split at h
    · exact Res.noConfusion h
    · rename_i tok toks1
      split at h
      · exact Res.noConfusion h
      · rename_i ob heq
        refine ih _ _ _ _ h ?_
        rw [appendBytes_data, List.length_append]
        refine Nat.dvd_add hl ?_
        cases ob with
        | none => simp
        | some c =>
          have := toType_ok_zeros tok t c heq
          subst this
          simp

lemma decodeAProp_propVal (p : Property) (toks : List String)
    (v : Option Bytes) (toks' : List String)
    (h : decodeAProp p toks = .ok (v, toks')) : PropVal p v := by
  intro hl b hb
  subst hb
  unfold decodeAProp at h
  dsimp only at h
  split at h
  · split at h
    · exact Res.noConfusion h
    · rename_i tok toks1
      split at h
      · exact Res.noConfusion h
      · rename_i num heq
        split at h
        · exact Res.noConfusion h
        · rename_i hsz
          split at h
          · exact Res.noConfusion h
          · exact Res.noConfusion h
          · rename_i l toks2 heq2
            simp only [Res.ok.injEq, Prod.mk.injEq, Option.some.injEq] at h
            obtain ⟨rfl, rfl⟩ := h
            refine decodeAListLoop_dvd _ _ _ _ _ _ heq2 ?_
            simp only [List.length_replicate]
            exact int_mul_toNat_dvd num (SizeOfType p.Type') hsz
  · simp_all

lemma propVal_none_row (props : List Property) :
    List.Forall₂ PropVal props (props.map fun _ => none) := by
  induction props with
  | nil => exact List.Forall₂.nil
  | cons p ps ih =>
    refine List.Forall₂.cons ?_ ih
    intro _ b hb
    exact Option.noConfusion hb

lemma decodeARow_propVal :
    ∀ (props : List Property) (toks : List String) (vals : List (Option Bytes))
      (toks' : List String), decodeARow props toks = .ok (vals, toks') →
      List.Forall₂ PropVal props vals := by
  intro props
  induction props with
  | nil =>
    intro toks vals toks' h
    simp only [decodeARow, Res.ok.injEq, Prod.mk.injEq] at h
    obtain ⟨rfl, rfl⟩ := h
    exact List.Forall₂.nil
  | cons p ps ih =>
    intro toks vals toks' h
    unfold decodeARow at h
    split at h
    · exact Res.noConfusion h
    · exact Res.noConfusion h
    · rename_i v toks1 heq
      split at h
      · exact Res.noConfusion h
      · exact Res.noConfusion h
      · rename_i vs toks2 heq2
        simp only [Res.ok.injEq, Prod.mk.injEq] at h
        obtain ⟨rfl, rfl⟩ := h
        exact List.Forall₂.cons (decodeAProp_propVal p toks v toks1 heq) (ih _ _ _ heq2)

lemma decodeARows_propVal (props : List Property) :
    ∀ (n : Nat) (lines : List String) (rows : List (List (Option Bytes)))
      (rest : List String), decodeARows props n lines = .ok (rows, rest) →
      ∀ r ∈ rows, List.Forall₂ PropVal props r := by
  intro n
  induction n with
  | zero =>
    intro lines rows rest h
    simp only [decodeARows, Res.ok.injEq, Prod.mk.injEq] at h
    obtain ⟨rfl, rfl⟩ := h
    simp
  | succ n ih =>
    intro lines rows rest h
    unfold decodeARows at h
    split at h
    · exact Res.noConfusion h
    · rename_i line rest1
      dsimp only at h
      split at h
      · split at h
        · exact Res.noConfusion h
        · exact Res.noConfusion h
        · rename_i rows1 rest2 heq
          simp only [Res.ok.injEq, Prod.mk.injEq] at h
          obtain ⟨rfl, rfl⟩ := h
          intro r hr
          rcases List.mem_cons.mp hr with rfl | hr
          · exact propVal_none_row props
          · exact ih rest1 rows1 rest2 heq r hr
      · split at h
        · exact Res.noConfusion h
        · exact Res.noConfusion h
        · rename_i vals toks1 heq
          split at h
          · exact Res.noConfusion h
          · exact Res.noConfusion h
          · rename_i rows1 rest2 heq2
            simp only [Res.ok.injEq, Prod.mk.injEq] at h
            obtain ⟨rfl, rfl⟩ := h
            intro r hr
            rcases List.mem_cons.mp hr with rfl | hr
            · exact decodeARow_propVal props _ _ toks1 heq
            · exact ih rest1 rows1 rest2 heq2 r hr

lemma decodeAElem_inv (e : Element) (lines : List String)
    (e' : Element) (rest : List String)
    (h : decodeAElem e lines = .ok (e', rest)) : listLenInv e' := by
  unfold decodeAElem at h
  split at h
  · exact Res.noConfusion h
  · split at h
    · exact Res.noConfusion h
    · exact Res.noConfusion h
    · rename_i rows rest2 heq
      simp only [Res.ok.injEq, Prod.mk.injEq] at h
      obtain ⟨rfl, rfl⟩ := h
      intro p hp hl _ r hr b hb
      obtain ⟨j, hj, rfl⟩ := setPropsData_mem _ _ _ _ hp
      obtain ⟨row, hrow, rfl⟩ := List.mem_map.mp hr
      have hf := decodeARows_propVal e.Properties e.Size.toNat lines rows rest2 heq row hrow
      have hpv := forall2_propVal_getD hf j hj
      simp only [Nat.zero_add] at hb
      exact hpv (by simpa using hl) b hb

lemma parseASCII_inv :
    ∀ (elems : List Element) (lines : List String)
      (out : List Element × List String),
      parseASCII elems lines = .ok out → ∀ e' ∈ out.1, listLenInv e' := by
  intro elems
  induction elems with
  | nil =>
    intro lines out h
    simp only [parseASCII, Res.ok.injEq] at h
    subst h
    simp
  | cons e es ih =>
    intro lines out h
    unfold parseASCII at h
    split at h
    · exact Res.noConfusion h
    · exact Res.noConfusion h
    · rename_i e1 rest1 heq
      split at h
      · exact Res.noConfusion h
      · exact Res.noConfusion h
      · rename_i es1 rest2 heq2
        simp only [Res.ok.injEq] at h
        subst h
        intro e' he'
        rcases List.mem_cons.mp he' with rfl | he'
        · exact decodeAElem_inv e lines _ rest1 heq
        · exact ih rest1 (es1, rest2) heq2 e' he'


/-! ### Header-loop stepping lemmas for claim C8 -/

lemma set_append_len {α : Type} (l : List α) (a b : α) :
    (l ++ [a]).set l.length b = l ++ [b] := by
  induction l with
  | nil => rfl
  | cons x l ih => simp [ih]

lemma getD_append_len {α : Type} (l : List α) (a d : α) :
    (l ++ [a]).getD l.length d = a := by
  induction l with
  | nil => rfl
  | cons x l ih => simpa using ih

lemma headerLoop_property_step (filename l : String) (rest : List String)
    (sP : Nat) (sO : List (String × String)) (sL : Nat)
    (elemsPre : List Element) (e : Element) (q : PropDecl)
    (hl : lineTok l (propToks q)) (hq : q.isList = false → q.typeTok ≠ "list") :
    headerLoop filename (l :: rest)
        ⟨elemsPre ++ [e], (elemsPre.length : Int), sP, sO, sL⟩ =
      headerLoop filename rest
        ⟨elemsPre ++ [{ e with Properties := e.Properties ++ [mkProp q sP] }],
          (elemsPre.length : Int), sP + 1, sO, sL + 1⟩ := by
  have hcond : 0 ≤ ((elemsPre.length : Int)) ∧
      ((elemsPre.length : Int)).toNat < (elemsPre ++ [e]).length := by
    constructor
    · positivity
    · simp
  rw [headerLoop]
  unfold lineTok at hl
  rw [hl]
  rcases q with ⟨isl, qc, qt, qn⟩
  cases isl with
  | false =>
    have hpw : propOfWords [qt, qn] sP = some ⟨qn, false, [], qt, "", sP⟩ := by
      unfold propOfWords
      dsimp only
      rw [if_neg (hq rfl)]
    simp only [propToks, Bool.false_eq_true, if_false]
    rw [if_neg (show ¬("property" = "comment") by decide),
      if_neg (show ¬("property" = "element") by decide),
      if_pos trivial]
    rw [hpw]
    dsimp only
    rw [if_pos hcond]
    simp only [Int.toNat_natCast, getD_append_len, set_append_len]
    simp [mkProp]
  | true =>
    have hpw : propOfWords ["list", qc, qt, qn] sP = some ⟨qn, true, [], qt, qc, sP⟩ := by
      unfold propOfWords
      dsimp only
      rw [if_pos rfl]
    simp only [propToks, if_true]
    rw [if_neg (show ¬("property" = "comment") by decide),
      if_neg (show ¬("property" = "element") by decide)]
    rw [hpw]
    dsimp only
    rw [if_pos hcond]
    simp only [Int.toNat_natCast, getD_append_len, set_append_len]
    simp [mkProp]

lemma headerLoop_comment_step (filename l : String) (rest : List String)
    (s : HState) (extra : List String) (hl : lineTok l ("comment" :: extra)) :
    headerLoop filename (l :: rest) s =
      headerLoop filename rest { s with currentLine := s.currentLine + 1 } := by
  rw [headerLoop]
  unfold lineTok at hl
  rw [hl]
  dsimp only
  rw [if_pos rfl]

lemma headerLoop_objinfo_step (filename l : String) (rest : List String)
    (s : HState) (k v : String) (extra : List String)
    (hl : lineTok l ("obj_info" :: k :: v :: extra)) :
    headerLoop filename (l :: rest) s =
      headerLoop filename rest
        { s with ObjInfo := mapSet s.ObjInfo k v,
                 currentLine := s.currentLine + 1 } := by
  rw [headerLoop]
  unfold lineTok at hl
  rw [hl]
  dsimp only
  rw [if_neg (show ¬("obj_info" = "comment") by decide),
    if_neg (show ¬("obj_info" = "element") by decide),
    if_neg (show ¬("obj_info" = "property") by decide),
    if_pos rfl]

lemma headerLoop_endh_step (filename l : String) (rest : List String)
    (s : HState) (extra : List String) (hl : lineTok l ("end_header" :: extra)) :
    headerLoop filename (l :: rest) s =
      .ok ({ s with currentLine := s.currentLine + 1 }, rest) := by
  rw [headerLoop]
  unfold lineTok at hl
  rw [hl]
  dsimp only
  rw [if_neg (show ¬("end_header" = "comment") by decide),
    if_neg (show ¬("end_header" = "element") by decide),
    if_neg (show ¬("end_header" = "property") by decide),
    if_neg (show ¬("end_header" = "obj_info") by decide),
    if_pos rfl]

lemma headerLoop_element_step (filename l : String) (rest : List String)
    (s : HState) (nameT sizeT : String) (extra : List String) (num : Int)
    (hl : lineTok l ("element" :: nameT :: sizeT :: extra))
    (hp : parseIntGo sizeT 0 32 = .ok num) :
    headerLoop filename (l :: rest) s =
      headerLoop filename rest
        { Elements := s.Elements ++ [{ Name := nameT, Properties := [], Size := num }],
          currentElem := s.currentElem + 1,
          propPos := 0,
          ObjInfo := s.ObjInfo,
          currentLine := s.currentLine + 1 } := by
  rw [headerLoop]
  unfold lineTok at hl
  rw [hl]
  dsimp only
  rw [if_neg (show ¬("element" = "comment") by decide), if_pos rfl]
  rw [hp]

lemma headerLoop_props (filename : String) :
    ∀ (qs : List PropDecl) (lines rest : List String)
      (sP sL : Nat) (sO : List (String × String))
      (elemsPre : List Element) (e : Element),
      List.Forall₂ lineTok lines (qs.map propToks) →
      (∀ q ∈ qs, q.isList = false → q.typeTok ≠ "list") →
      headerLoop filename (lines ++ rest)
          ⟨elemsPre ++ [e], (elemsPre.length : Int), sP, sO, sL⟩ =
        headerLoop filename rest
          ⟨elemsPre ++ [{ e with Properties := e.Properties ++ mkProps qs sP }],
            (elemsPre.length : Int), sP + qs.length, sO, sL + lines.length⟩ := by
  intro qs
  induction qs with
  | nil =>
    intro lines rest sP sL sO elemsPre e hf hq
    cases hf
    simp [mkProps]
  | cons q qs ih =>
    intro lines rest sP sL sO elemsPre e hf hq
    rcases List.forall₂_cons_right_iff.mp (by simpa using hf) with ⟨l, ls, hl, hls, rfl⟩
    rw [List.cons_append,
      headerLoop_property_step filename l (ls ++ rest) sP sO sL elemsPre e q hl
        (hq q (by simp)),
      ih ls rest (sP + 1) (sL + 1) sO elemsPre
        { e with Properties := e.Properties ++ [mkProp q sP] } hls
        (fun q' hq' => hq q' (by simp [hq']))]
    congr 1
    simp [HState.mk.injEq, mkProps, List.append_assoc]
    omega

lemma headerLoop_body (filename : String) {tls : List (List String)}
    {decls : List ElemDecl} (hb : BodyTok tls decls) :
    ∀ (lines extra : List String) (elems : List Element)
      (sP sL : Nat) (sO : List (String × String)),
      List.Forall₂ lineTok lines tls →
      ∃ s', headerLoop filename (lines ++ extra)
          ⟨elems, (elems.length : Int) - 1, sP, sO, sL⟩ = .ok (s', extra) ∧
        s'.Elements = elems ++ decls.map mkElem := by
  induction hb with
  | endh extraToks =>
    intro lines extra elems sP sL sO hf
    rcases List.forall₂_cons_right_iff.mp hf with ⟨l, ls, hl, hls, rfl⟩
    cases hls
    exact ⟨_, headerLoop_endh_step filename l extra _ extraToks hl, by simp⟩
  | comment extraToks hrest ih =>
    intro lines extra elems sP sL sO hf
    rcases List.forall₂_cons_right_iff.mp hf with ⟨l, ls, hl, hls, rfl⟩
    rw [List.cons_append,
      headerLoop_comment_step filename l (ls ++ extra) _ extraToks hl]
    exact ih ls extra elems sP (sL + 1) sO hls
  | objinfo k v extraToks hrest ih =>
    intro lines extra elems sP sL sO hf
    rcases List.forall₂_cons_right_iff.mp hf with ⟨l, ls, hl, hls, rfl⟩
    rw [List.cons_append,
      headerLoop_objinfo_step filename l (ls ++ extra) _ k v extraToks hl]
    exact ih ls extra elems sP (sL + 1) (mapSet sO k v) hls
  | elem d extraToks hparse hq hrest ih =>
    intro lines extra elems sP sL sO hf
    rcases List.forall₂_cons_right_iff.mp hf with ⟨l, ls, hl, hls, rfl⟩
    have h1 := List.forall₂_take_append ls _ _ hls
    have h2 := List.forall₂_drop_append ls _ _ hls
    rw [List.cons_append,
      headerLoop_element_step filename l (ls ++ extra) _ d.nameTok d.sizeTok
        extraToks d.size hl hparse]
    dsimp only
    have hst : (⟨elems ++ [⟨d.nameTok, [], d.size⟩],
        ((elems.length : Int) - 1) + 1, 0, sO, sL + 1⟩ : HState) =
        ⟨elems ++ [⟨d.nameTok, [], d.size⟩], (elems.length : Int), 0, sO, sL + 1⟩ := by
      simp [HState.mk.injEq]
    rw [hst]
    rw [← List.take_append_drop ((d.props.map propToks).length) ls,
      List.append_assoc]
    rw [headerLoop_props filename d.props
      (ls.take (d.props.map propToks).length)
      (ls.drop (d.props.map propToks).length ++ extra) 0 (sL + 1) sO elems
      ⟨d.nameTok, [], d.size⟩ h1 hq]
    have hst2 : (⟨elems ++
        [{ (⟨d.nameTok, [], d.size⟩ : Element) with
           Properties := ([] : List Property) ++ mkProps d.props 0 }],
        (elems.length : Int), 0 + d.props.length, sO,
        (sL + 1) + (ls.take (d.props.map propToks).length).length⟩ : HState) =
        ⟨elems ++ [mkElem d],
          ((elems ++ [mkElem d]).length : Int) - 1, 0 + d.props.length, sO,
          (sL + 1) + (ls.take (d.props.map propToks).length).length⟩ := by
      simp [HState.mk.injEq, mkElem]
    rw [hst2]
    obtain ⟨s', hrun, hE⟩ := ih (ls.drop (d.props.map propToks).length) extra
      (elems ++ [mkElem d]) (0 + d.props.length)
      ((sL + 1) + (ls.take (d.props.map propToks).length).length) sO h2
    exact ⟨s', hrun, by simp [hE, List.append_assoc]⟩

lemma mkProps_length (qs : List PropDecl) : ∀ pos, (mkProps qs pos).length = qs.length := by
  induction qs with
  | nil => intro pos; rfl
  | cons q qs ih => intro pos; simp [mkProps, ih]

lemma mkProps_names (qs : List PropDecl) :
    ∀ pos, (mkProps qs pos).map (fun p => p.Name) = qs.map (fun q => q.nameTok) := by
  induction qs with
  | nil => intro pos; rfl
  | cons q qs ih =>
    intro pos
    simp only [mkProps, List.map_cons, ih]
    cases hq : q.isList <;> simp [mkProp, hq]

lemma mkProps_kinds (qs : List PropDecl) :
    ∀ pos, (mkProps qs pos).map (fun p => (p.IsList, p.Type')) =
      qs.map (fun q => (q.isList, q.typeTok)) := by
  induction qs with
  | nil => intro pos; rfl
  | cons q qs ih =>
    intro pos
    simp only [mkProps, List.map_cons, ih]
    cases hq : q.isList <;> simp [mkProp, hq]

/-! ## Claims -/

/-- Claim C1 (evaluation at the failing input): loading the minimal ASCII
document does succeed and does produce one vertex row, but every stored row
buffer is four zero bytes — `toType` returns its zero-filled allocation, the
value written into the `bytes.Buffer` being lost — so `ReadVertices` returns
the all-zero columns ([0.0],[0.0],[0.0]) (bit patterns [[0],[0],[0]]) rather
than ([1.0],[2.0],[3.0]) (bit patterns 0x3F800000, 0x40000000, 0x40400000),
contradicting the claim. -/
theorem c1_minimal_ascii_gives_zero_columns :
    loadAndReadVertices "min.ply" minAsciiDoc ⟨[]⟩ = .ok (some [[0], [0], [0]]) ∧
    ([[0], [0], [0]] : List (List Nat)) ≠
      [[0x3F800000], [0x40000000], [0x40400000]] :=
  ⟨by decide, by decide⟩

/-- Claim C3 (evaluation at the failing input): decoding
`property list uint8 int32 ids` with count 3 and three 4-byte values stores a
24-byte row buffer — a 12-byte zero prefix followed by the three values'
bytes — not the 12-byte concatenation the claim states (the buffer is
created with *length*, not capacity, `numSize*width`, and `appendBytes`
appends after that length). -/
theorem c3_list_row_buffer_is_24_bytes :
    Load "f.ply" c3Header c3Body =
      .ok ⟨[⟨"face", [⟨"ids", true, [some c3RowBuf], "int32", "uint8", 0⟩], 1⟩],
        1, [], .little⟩ ∧
    c3RowBuf.length = 24 ∧ c3RowBuf.length ≠ 12 :=
  ⟨by decide, by decide, by decide⟩

/-- Claim C4 (evaluation at the failing input): loading a binary file whose
body is empty while the schema implies 4 bytes SUCCEEDS — `toBType` discards
the result of `rd.Read`, so the row buffer is silently left as 4 zero bytes
and `Load` returns without error, contradicting the claim that truncation is
always an I/O or format error. -/
theorem c4_truncated_binary_loads_successfully :
    Load "t.ply" c4Header ⟨[]⟩ =
      .ok ⟨[⟨"vertex", [⟨"x", false, [some [0, 0, 0, 0]], "float32", "", 0⟩], 1⟩],
        1, [], .little⟩ :=
  by decide

/-- Claim C10: a header whose `property` line precedes any `element` line
makes `parseHeader` index `p.Elements[currentElem]` with `currentElem = -1`,
an index-out-of-range fault rather than a structured format error. -/
theorem c10_property_before_element_faults :
    parseHeader "f.ply"
      ["ply", "format ascii 1.0", "property float32 x", "end_header"] =
      .fault "index out of range" :=
  by decide

/-- Counterexample to claim C6 as stated: a file whose first header line is
`" ply"` — not the literal `ply` — loads successfully, because `readLine`
trims whitespace before the comparison. -/
theorem c6_counterexample_leading_space_ply_loads :
    (" ply" : String) ≠ "ply" ∧
    Load "p.ply" [" ply", "format ascii 1.0", "end_header"] ⟨[]⟩ =
      .ok ⟨[], 2, [], .little⟩ :=
  ⟨by decide, by decide⟩

/-- Claim C6 as amended: if the first header line, after the whitespace
trimming `readLine` performs, is not the literal `ply`, then `Load` fails
with the format error `<filename> is not a ply file.` — an error value whose
message names the source file, not an unrelated exception. -/
theorem c6_amended_nonply_first_line_is_format_error (filename l : String)
    (rest : List String) (body : ByteStream) (h : strip l ≠ "ply") :
    Load filename (l :: rest) body =
      .err (.msg (filename ++ " is not a ply file.")) := by
  unfold Load parseHeader
  simp [h]

theorem c6_amended_witness :
    Load "a.ply" ["bogus", "format ascii 1.0", "end_header"] ⟨[]⟩ =
      .err (.msg ("a.ply" ++ " is not a ply file.")) :=
  c6_amended_nonply_first_line_is_format_error "a.ply" "bogus"
    ["format ascii 1.0", "end_header"] ⟨[]⟩ (by decide)

/-- Claim C2 (evaluation at the failing input, plus the general divergence):
the token `"1"` of type `uint8` parses, yet the returned buffer is `[0x00]`,
not the little-endian representation `[0x01]` of the parsed value; in
general every successful `toType` call returns `width(T)` zero bytes —
correct width, never the value's representation (the `binary.Write` output
lands beyond the returned slice). -/
theorem c2_toType_returns_zero_bytes :
    toType "1" "uint8" = .ok (some [0]) ∧
    ∀ (data t : String) (b : Bytes), toType data t = .ok (some b) →
      b = List.replicate (SizeOfType t) 0 :=
  ⟨by decide, toType_ok_zeros⟩

theorem c2_witness :
    ([0] : Bytes) = List.replicate (SizeOfType "uint8") 0 :=
  c2_toType_returns_zero_bytes.2 "1" "uint8" [0] c2_toType_returns_zero_bytes.1

/-- Claim C5: after a successful decode, binary or ASCII, every populated
row buffer of every list property of a recognized scalar type has a byte
length that is an exact multiple of the type's width (`listLenInv`). -/
theorem c5_list_buffer_length_multiple_of_width :
    (∀ (bo : ByteOrder) (elems : List Element) (st : ByteStream)
      (out : List Element × ByteStream), parseBinary bo elems st = .ok out →
      ∀ e ∈ out.1, listLenInv e) ∧
    (∀ (elems : List Element) (lines : List String)
      (out : List Element × List String), parseASCII elems lines = .ok out →
      ∀ e ∈ out.1, listLenInv e) :=
  ⟨fun bo elems st out h => decodeBElems_inv bo elems st out h,
   fun elems lines out h => parseASCII_inv elems lines out h⟩

theorem c5_witness : SizeOfType "int32" ∣ c5Buf.length :=
  c5_list_buffer_length_multiple_of_width.1 .little [c5Elem] c5Stream
    ([c5OutElem], ⟨[]⟩) (by decide) c5OutElem (by decide) c5OutProp (by decide)
    rfl rfl (some c5Buf) (by decide) c5Buf rfl

/-- Claim C7: in both binary modes the list-count field of a list property
is read as a fixed 4-byte unsigned integer in the file's byte order: the
decode result never depends on the header-declared `ListSizeType`; fewer
than 4 available bytes is an error; and with 4 or more, the number of list
items decoded is exactly the first four bytes reassembled in the byte order
(visible as the stored buffer length `2*count*width`, see C3/C5). -/
theorem c7_binary_list_count_is_fixed_u32 (bo : ByteOrder) (prop : Property)
    (st : ByteStream) (t' : String) (hl : prop.IsList = true) :
    decodeBProp bo { prop with ListSizeType := t' } st = decodeBProp bo prop st ∧
    (st.data.length < 4 → ∃ e, decodeBProp bo prop st = .err e) ∧
    (4 ≤ st.data.length → recognizedType prop.Type' = true →
      ∃ b st2, decodeBProp bo prop st = .ok (some b, st2) ∧
        b.length = 2 * (decodeU32 bo (st.data.take 4) * SizeOfType prop.Type')) := by
  refine ⟨?_, ?_, ?_⟩
  · cases prop
    rfl
  · intro hlt
    by_cases h0 : st.data.length = 0
    · exact ⟨.eof, by simp [decodeBProp, hl, binReadU32, h0]⟩
    · exact ⟨.unexpectedEOF, by simp [decodeBProp, hl, binReadU32, h0, hlt]⟩
  · intro h4 hrec
    have h0 : ¬ st.data.length = 0 := by omega
    have hno : ¬ st.data.length < 4 := by omega
    have heval : decodeBProp bo prop st =
        .ok (some (decodeBListLoop prop.Type' (decodeU32 bo (st.data.take 4))
            (makeBytes (decodeU32 bo (st.data.take 4) * SizeOfType prop.Type'))
            ⟨st.data.drop 4⟩).1.data,
          (decodeBListLoop prop.Type' (decodeU32 bo (st.data.take 4))
            (makeBytes (decodeU32 bo (st.data.take 4) * SizeOfType prop.Type'))
            ⟨st.data.drop 4⟩).2) := by
      simp [decodeBProp, hl, binReadU32, h0, hno]
    refine ⟨_, _, heval, ?_⟩
    rw [decodeBListLoop_len prop.Type' hrec]
    simp [makeBytes]
    ring

lemma getD_map_none (l : List Property) (k : Nat) :
    (l.map (fun _ => (none : Option Bytes))).getD k none = none := by
  induction l generalizing k with
  | nil => simp
  | cons p ps ih => cases k <;> simp_all

/-- Rows of an ASCII element decode: there is one row per line, and a row
whose line yields no numeric tokens is the all-unset row. -/
lemma decodeARows_empty_line (props : List Property) :
    ∀ (n : Nat) (lines : List String) (rows : List (List (Option Bytes)))
      (rest : List String), decodeARows props n lines = .ok (rows, rest) →
      ∀ (j : Nat) (lj : String), j < n → lines.get? j = some lj →
        numTokens (strip lj) = [] →
        rows.get? j = some (props.map fun _ => none) := by
  intro n
  induction n with
  | zero => intro lines rows rest h j lj hj; omega
  | succ n ih =>
    intro lines rows rest h j lj hj hget htok
    unfold decodeARows at h
    split at h
    · exact Res.noConfusion h
    · rename_i line rest1
      dsimp only at h
      split at h
      · split at h
        · exact Res.noConfusion h
        · exact Res.noConfusion h
        · rename_i rows1 rest2 heq
          simp only [Res.ok.injEq, Prod.mk.injEq] at h
          obtain ⟨rfl, rfl⟩ := h
          cases j with
          | zero => simp
          | succ j =>
            simp only [List.get?_cons_succ] at hget ⊢
            exact ih rest1 rows1 rest2 heq j lj (by omega) hget htok
      · rename_i hne
        split at h
        · exact Res.noConfusion h
        · exact Res.noConfusion h
        · rename_i vals toks1 heq
          split at h
          · exact Res.noConfusion h
          · exact Res.noConfusion h
          · rename_i rows1 rest2 heq2
            simp only [Res.ok.injEq, Prod.mk.injEq] at h
            obtain ⟨rfl, rfl⟩ := h
            cases j with
            | zero =>
              simp only [List.get?_cons_zero, Option.some.injEq] at hget
              subst hget
              exact absurd htok hne
            | succ j =>
              simp only [List.get?_cons_succ] at hget ⊢
              exact ih rest1 rows1 rest2 heq2 j lj (by omega) hget htok

/-- Claim C9: during an ASCII element decode, a row whose line yields no
numeric tokens leaves every property of that row unset (`none`) — first
conjunct: in any successful decode, such a row stores `none` for every
property; second conjunct: such a row on its own causes no error and
decoding proceeds (an element with that single row decodes successfully
with every property's row unset). -/
theorem c9_empty_ascii_line_skips_row :
    (∀ (e : Element) (lines : List String) (e' : Element) (rest : List String),
      decodeAElem e lines = .ok (e', rest) →
      ∀ (j : Nat) (lj : String), j < e.Size.toNat → lines.get? j = some lj →
        numTokens (strip lj) = [] →
        ∀ p' ∈ e'.Properties, p'.Data.get? j = some none) ∧
    (∀ (name : String) (props : List Property) (line : String),
      numTokens (strip line) = [] →
      decodeAElem ⟨name, props, 1⟩ [line] =
        .ok (⟨name, setPropsData props [props.map fun _ => none] 0, 1⟩, []) ∧
      ∀ p' ∈ setPropsData props [props.map fun _ => none] 0,
        p'.Data = [none]) := by
  constructor
  · intro e lines e' rest h j lj hj hget htok p' hp'
    unfold decodeAElem at h
    split at h
    · exact Res.noConfusion h
    · split at h
      · exact Res.noConfusion h
      · exact Res.noConfusion h
      · rename_i rows rest2 heq
        simp only [Res.ok.injEq, Prod.mk.injEq] at h
        obtain ⟨rfl, rfl⟩ := h
        obtain ⟨k, hk, rfl⟩ := setPropsData_mem _ _ _ _ hp'
        have hrow := decodeARows_empty_line e.Properties e.Size.toNat lines
          rows rest2 heq j lj hj hget htok
        simp only [List.get?_map, hrow, Option.map_some']
        rw [getD_map_none]
  · intro name props line htok
    constructor
    · have h1 : decodeARows props 1 [line] =
          .ok ([props.map fun _ => none], []) := by
        unfold decodeARows
        dsimp only
        rw [if_pos htok]
        rfl
      have h2 : decodeAElem ⟨name, props, 1⟩ [line] =
          (match decodeARows props 1 [line] with
          | Res.err er => Res.err er
          | Res.fault m => Res.fault m
          | Res.ok (rows, rest) =>
            Res.ok (⟨name, setPropsData props rows 0, 1⟩, rest)) := rfl
      rw [h2, h1]
    · intro p' hp'
      obtain ⟨k, hk, rfl⟩ := setPropsData_mem _ _ _ _ hp'
      simp [getD_map_none]

theorem c9_witness : c9OutProp.Data.get? 0 = some none :=
  c9_empty_ascii_line_skips_row.1 c9Elem ["   "] c9OutElem [] (by decide)
    0 "   " (by decide) (by decide) (by decide) c9OutProp (by decide)

theorem c7_witness :
    (decodeBProp .little { c7Prop with ListSizeType := "uint16" } c7Stream =
      decodeBProp .little c7Prop c7Stream) ∧
    (∃ b st2, decodeBProp .little c7Prop c7Stream = .ok (some b, st2) ∧
      b.length = 2 * (decodeU32 .little (c7Stream.data.take 4) *
        SizeOfType c7Prop.Type')) :=
  ⟨(c7_binary_list_count_is_fixed_u32 .little c7Prop c7Stream "uint16" rfl).1,
   (c7_binary_list_count_is_fixed_u32 .little c7Prop c7Stream "uint16" rfl).2.2
     (by decide) (by decide)⟩


/-- Claim C8: for every well-formed header — line 1 `ply` (after trimming),
line 2 `format <mode> <version>` with a recognized mode, then element
declarations each followed by its property declarations, with comment and
obj_info lines allowed in between, terminated by `end_header` — the
resulting schema lists the elements in declaration order with their declared
names and (parsed) row counts, and within each element the properties in
declaration order with their declared names, list-ness and type tokens; the
element count and per-element property counts match the header exactly. -/
theorem c8_header_schema_matches_declarations
    (filename l1 l2 : String) (bodyLines extra : List String)
    (tls : List (List String)) (decls : List ElemDecl)
    (modeTok verTok : String) (ft : Int)
    (h1 : strip l1 = "ply")
    (h2 : headerTokens (strip l2) = ["format", modeTok, verTok])
    (hm : (modeTok = "ascii" ∧ ft = 2) ∨ (modeTok = "binary_big_endian" ∧ ft = 0) ∨
      (modeTok = "binary_little_endian" ∧ ft = 1))
    (hf : List.Forall₂ lineTok bodyLines tls)
    (hb : BodyTok tls decls) :
    ∃ res, parseHeader filename (l1 :: l2 :: (bodyLines ++ extra)) = .ok (res, extra) ∧
      res.FileType = ft ∧
      res.Elements.length = decls.length ∧
      res.Elements.map (fun e => e.Name) = decls.map (fun d => d.nameTok) ∧
      res.Elements.map (fun e => e.Size) = decls.map (fun d => d.size) ∧
      res.Elements.map (fun e => e.Properties.length) =
        decls.map (fun d => d.props.length) ∧
      res.Elements.map (fun e => e.Properties.map (fun p => p.Name)) =
        decls.map (fun d => d.props.map (fun q => q.nameTok)) ∧
      res.Elements.map (fun e => e.Properties.map (fun p => (p.IsList, p.Type'))) =
        decls.map (fun d => d.props.map (fun q => (q.isList, q.typeTok))) := by
  obtain ⟨s', hrun, hE⟩ := headerLoop_body filename hb bodyLines extra [] 0 2 [] hf
  have hrun' : headerLoop filename (bodyLines ++ extra) ⟨[], -1, 0, [], 2⟩ =
      .ok (s', extra) := by
    rw [show (⟨[], -1, 0, [], 2⟩ : HState) =
        ⟨[], ((([] : List Element).length : Int)) - 1, 0, [], 2⟩ by simp]
    exact hrun
  simp only [List.nil_append] at hE
  refine ⟨⟨s'.Elements, ft, s'.ObjInfo⟩, ?_, rfl, ?_, ?_, ?_, ?_, ?_, ?_⟩
  · unfold parseHeader
    dsimp only
    rw [if_neg (by simp [h1])]
    rw [h2]
    rw [if_neg (by simp)]
    rw [if_neg (by simp)]
    rcases hm with ⟨rfl, rfl⟩ | ⟨rfl, rfl⟩ | ⟨rfl, rfl⟩
    · rw [if_pos (show (List.getD ["format", "ascii", verTok] 1 "" = "ascii") by simp)]
      rw [hrun']
    · rw [if_neg (show ¬(List.getD ["format", "binary_big_endian", verTok] 1 "" = "ascii") by simp),
        if_pos (show (List.getD ["format", "binary_big_endian", verTok] 1 "" = "binary_big_endian") by simp)]
      rw [hrun']
    · rw [if_neg (show ¬(List.getD ["format", "binary_little_endian", verTok] 1 "" = "ascii") by simp),
        if_neg (show ¬(List.getD ["format", "binary_little_endian", verTok] 1 "" = "binary_big_endian") by simp),
        if_pos (show (List.getD ["format", "binary_little_endian", verTok] 1 "" = "binary_little_endian") by simp)]
      rw [hrun']
  · simp [hE, mkElem]
  · simp [hE, mkElem, List.map_map, Function.comp]
  · simp [hE, mkElem, List.map_map, Function.comp]
  · simp [hE, mkElem, List.map_map, Function.comp, mkProps_length]
  · simp [hE, mkElem, List.map_map, Function.comp, mkProps_names]
  · simp [hE, mkElem, List.map_map, Function.comp, mkProps_kinds]

theorem c8_witness :
    ∃ res, parseHeader "w.ply" ("ply" :: "format ascii 1.0" :: (c8Lines ++ [])) =
        .ok (res, []) ∧
      res.FileType = 2 ∧
      res.Elements.length = c8Decls.length ∧
      res.Elements.map (fun e => e.Name) = c8Decls.map (fun d => d.nameTok) ∧
      res.Elements.map (fun e => e.Size) = c8Decls.map (fun d => d.size) ∧
      res.Elements.map (fun e => e.Properties.length) =
        c8Decls.map (fun d => d.props.length) ∧
      res.Elements.map (fun e => e.Properties.map (fun p => p.Name)) =
        c8Decls.map (fun d => d.props.map (fun q => q.nameTok)) ∧
      res.Elements.map (fun e => e.Properties.map (fun p => (p.IsList, p.Type'))) =
        c8Decls.map (fun d => d.props.map (fun q => (q.isList, q.typeTok))) :=
  c8_header_schema_matches_declarations "w.ply" "ply" "format ascii 1.0" c8Lines []
    c8Tls c8Decls "ascii" "1.0" 2 (by decide) (by decide) (Or.inl ⟨rfl, rfl⟩)
    (List.Forall₂.cons (by unfold lineTok; decide)
      (List.Forall₂.cons (by unfold lineTok; decide)
        (List.Forall₂.cons (by unfold lineTok; decide)
          (List.Forall₂.cons (by unfold lineTok; decide) List.Forall₂.nil))))
    (BodyTok.elem ⟨"vertex", "2", 2, [⟨false, "", "float32", "x"⟩,
        ⟨true, "uchar", "int", "ids"⟩]⟩ [] (by decide) (by decide)
      (BodyTok.endh []))

end GoPly
